import Mathlib

/-!
Verification development for the ast-gh-actions repository.

This file gives a shallow embedding of the retry-and-reconcile core of the
repository (the upstream-tag-sync and upstream-tag-on-merge actions) and
proves the frozen claims about it.

Conventions of the embedding:
- JavaScript numbers that only ever hold integers are modelled as Nat or Int;
  the millisecond delay after jitter is modelled as a rational because
  Math.random() * 1000 is a real number in the interval from 0 inclusive
  to 1000 exclusive.
- Asynchronous operations become pure functions from the attempt index to an
  outcome; sleeping is recorded in a trace of delays instead of waiting.
- The semver library calls semver.clean, semver.valid and semver.rcompare are
  modelled by a parser and comparator for the strict semver grammar
  MAJOR.MINOR.PATCH with optional dash separated prerelease and plus separated
  build metadata, exactly the grammar of the regular expression the library
  uses in strict mode.  The JavaScript limit of Number.MAX_SAFE_INTEGER on
  numeric components is not modelled.
- Array.prototype.sort with a consistent comparator is a stable comparison
  sort; it is modelled by the stable List.insertionSort of Mathlib with the
  predicate expressing that the comparator returns at most zero.
-/

/-! ### Ordering helpers -/

/-- Numeric three way comparison, as performed on JavaScript numbers. -/
def cmpN (a b : Nat) : Ordering :=
  if a < b then Ordering.lt else if b < a then Ordering.gt else Ordering.eq

theorem cmpN_eq_lt {a b : Nat} : cmpN a b = Ordering.lt ↔ a < b := by
  unfold cmpN
  split
  case isTrue h => simp [h]
  case isFalse h =>
    split <;> simp <;> omega

theorem cmpN_eq_gt {a b : Nat} : cmpN a b = Ordering.gt ↔ b < a := by
  unfold cmpN
  split
  case isTrue h => simp; omega
  case isFalse h =>
    split <;> simp <;> omega

theorem cmpN_eq_eq {a b : Nat} : cmpN a b = Ordering.eq ↔ a = b := by
  unfold cmpN
  split
  case isTrue h => simp; omega
  case isFalse h =>
    split <;> simp <;> omega

theorem cmpN_swap (a b : Nat) : cmpN a b = (cmpN b a).swap := by
  unfold cmpN
  rcases Nat.lt_trichotomy a b with h | h | h
  · simp [h, Nat.lt_asymm h, Ordering.swap]
  · subst h
    simp [Nat.lt_irrefl, Ordering.swap]
  · simp [h, Nat.lt_asymm h, Ordering.swap]

theorem then_eq_lt {o p : Ordering} :
    o.then p = Ordering.lt ↔ o = Ordering.lt ∨ (o = Ordering.eq ∧ p = Ordering.lt) := by
  cases o <;> simp [Ordering.then]

theorem then_eq_gt {o p : Ordering} :
    o.then p = Ordering.gt ↔ o = Ordering.gt ∨ (o = Ordering.eq ∧ p = Ordering.gt) := by
  cases o <;> simp [Ordering.then]

theorem then_eq_eq {o p : Ordering} :
    o.then p = Ordering.eq ↔ o = Ordering.eq ∧ p = Ordering.eq := by
  cases o <;> simp [Ordering.then]

theorem then_swap (o p : Ordering) : (o.then p).swap = o.swap.then p.swap := by
  cases o <;> rfl

theorem swap_eq_gt {o : Ordering} : o.swap = Ordering.gt ↔ o = Ordering.lt := by
  cases o <;> simp [Ordering.swap]

/-- Lexicographic comparison of lists under an element comparator, as the
semver library does for prerelease identifier lists and as JavaScript string
comparison does for code unit sequences: a strict prefix is smaller. -/
def cmpList (f : α → α → Ordering) : List α → List α → Ordering
  | [], [] => Ordering.eq
  | [], _ :: _ => Ordering.lt
  | _ :: _, [] => Ordering.gt
  | a :: as, b :: bs => (f a b).then (cmpList f as bs)

theorem cmpList_swap (f : α → α → Ordering) (hf : ∀ a b, f a b = (f b a).swap) :
    ∀ x y : List α, cmpList f x y = (cmpList f y x).swap := by
  intro x
  induction x with
  | nil => intro y; cases y <;> rfl
  | cons a as ih =>
    intro y
    cases y with
    | nil => rfl
    | cons b bs =>
      show (f a b).then (cmpList f as bs) = ((f b a).then (cmpList f bs as)).swap
      rw [then_swap, ← hf a b, ← ih bs]

theorem cmpList_eq_of_eq (f : α → α → Ordering) (hf : ∀ a b, f a b = Ordering.eq → a = b) :
    ∀ x y : List α, cmpList f x y = Ordering.eq → x = y := by
  intro x
  induction x with
  | nil => intro y h; cases y with
    | nil => rfl
    | cons b bs => simp [cmpList] at h
  | cons a as ih =>
    intro y h
    cases y with
    | nil => simp [cmpList] at h
    | cons b bs =>
      have h2 := then_eq_eq.mp h
      have hab := hf a b h2.1
      have hrest := ih bs h2.2
      rw [hab, hrest]

theorem cmpList_lt_trans (f : α → α → Ordering)
    (hfeq : ∀ a b, f a b = Ordering.eq → a = b)
    (hft : ∀ a b c, f a b = Ordering.lt → f b c = Ordering.lt → f a c = Ordering.lt) :
    ∀ x y z : List α, cmpList f x y = Ordering.lt → cmpList f y z = Ordering.lt →
      cmpList f x z = Ordering.lt := by
  intro x
  induction x with
  | nil =>
    intro y z hxy hyz
    cases y with
    | nil => simp [cmpList] at hxy
    | cons b bs =>
      cases z with
      | nil => simp [cmpList] at hyz
      | cons c cs => simp [cmpList]
  | cons a as ih =>
    intro y z hxy hyz
    cases y with
    | nil => simp [cmpList] at hxy
    | cons b bs =>
      cases z with
      | nil => simp [cmpList] at hyz
      | cons c cs =>
        show (f a c).then (cmpList f as cs) = Ordering.lt
        rcases then_eq_lt.mp hxy with hab | ⟨hab, habs⟩
        · rcases then_eq_lt.mp hyz with hbc | ⟨hbc, hbcs⟩
          · exact then_eq_lt.mpr (Or.inl (hft a b c hab hbc))
          · have := hfeq b c hbc
            subst this
            exact then_eq_lt.mpr (Or.inl hab)
        · have := hfeq a b hab
          subst this
          rcases then_eq_lt.mp hyz with hbc | ⟨hbc, hbcs⟩
          · exact then_eq_lt.mpr (Or.inl hbc)
          · exact then_eq_lt.mpr (Or.inr ⟨hbc, ih bs cs habs hbcs⟩)

/-! ### Semantic versions, as the semver library parses and compares them -/

/-- One prerelease identifier: numeric identifiers compare numerically and
below alphanumeric ones, alphanumeric ones compare as JavaScript strings. -/
inductive PreId where
  | num (n : Nat)
  | str (s : String)
deriving DecidableEq, Repr

/-- A parsed semantic version.  Build metadata is checked during parsing but
never stored because the semver library ignores it for precedence. -/
structure SemVer where
  major : Nat
  minor : Nat
  patch : Nat
  prerelease : List PreId
deriving DecidableEq, Repr

/-- JavaScript string comparison on ASCII identifiers: lexicographic by code
unit. -/
def charCmp (c d : Char) : Ordering := cmpN c.toNat d.toNat

/-- semver compareIdentifiers: two numerics compare numerically, a numeric is
below an alphanumeric, two alphanumerics compare as strings. -/
def cmpPreId : PreId → PreId → Ordering
  | PreId.num a, PreId.num b => cmpN a b
  | PreId.num _, PreId.str _ => Ordering.lt
  | PreId.str _, PreId.num _ => Ordering.gt
  | PreId.str a, PreId.str b => cmpList charCmp a.toList b.toList

/-- semver comparePre: a version without prerelease identifiers is above any
version with them; two prerelease identifier lists compare pairwise, a strict
prefix being smaller. -/
def cmpPre : List PreId → List PreId → Ordering
  | [], [] => Ordering.eq
  | _ :: _, [] => Ordering.lt
  | [], _ :: _ => Ordering.gt
  | a :: as, b :: bs => cmpList cmpPreId (a :: as) (b :: bs)

/-- semver compare: major, then minor, then patch, then prerelease rules. -/
def semverCompare (a b : SemVer) : Ordering :=
  (cmpN a.major b.major).then
    ((cmpN a.minor b.minor).then
      ((cmpN a.patch b.patch).then (cmpPre a.prerelease b.prerelease)))

/-! ### The strict semver grammar

String.trim, String.splitOn and String.intercalate of the Lean library are
implemented over byte positions and do not reduce inside the kernel, so the
JavaScript string operations are modelled directly over character lists: all
the separators the semver grammar needs are single characters. -/

/-- JavaScript String.prototype.split with a single character separator. -/
def splitOnChar (sep : Char) : List Char → List (List Char)
  | [] => [[]]
  | c :: rest =>
    if c == sep then [] :: splitOnChar sep rest
    else
      match splitOnChar sep rest with
      | [] => [[c]]
      | h :: t => (c :: h) :: t

/-- Array.prototype.join with a single character separator, the inverse used
to reassemble the prerelease part after splitting the main part on dashes. -/
def joinWithChar (sep : Char) : List (List Char) → List Char
  | [] => []
  | [p] => p
  | p :: rest => p ++ sep :: joinWithChar sep rest

/-- JavaScript String.prototype.trim: strip whitespace from both ends. -/
def jsTrim (cs : List Char) : List Char :=
  ((cs.dropWhile Char.isWhitespace).reverse.dropWhile Char.isWhitespace).reverse

/-- Digits of a decimal numeral to its value. -/
def natOfDigits (cs : List Char) : Nat :=
  cs.foldl (fun acc c => acc * 10 + (c.toNat - 48)) 0

/-- A numeral with more than one digit must not start with zero. -/
def hasLeadingZero : List Char → Bool
  | '0' :: _ :: _ => true
  | _ => false

/-- Characters allowed in prerelease and build identifiers. -/
def isIdentChar (c : Char) : Bool := c.isDigit || c.isAlpha || c == '-'

/-- The numeric core components of the grammar: zero, or a nonzero digit
followed by digits. -/
def parseNumericId (cs : List Char) : Option Nat :=
  if cs.isEmpty then none
  else if !cs.all Char.isDigit then none
  else if hasLeadingZero cs then none
  else some (natOfDigits cs)

/-- One prerelease identifier: either numeric without leading zero, or any
nonempty identifier string containing a non digit. -/
def parsePreId (cs : List Char) : Option PreId :=
  if cs.isEmpty then none
  else if !cs.all isIdentChar then none
  else if cs.all Char.isDigit then
    if hasLeadingZero cs then none else some (PreId.num (natOfDigits cs))
  else some (PreId.str (String.mk cs))

/-- One build metadata identifier: nonempty, over the identifier alphabet. -/
def validBuildId (cs : List Char) : Bool :=
  !cs.isEmpty && cs.all isIdentChar

/-- Strict parse of a semantic version, following the full semver regular
expression: the core is three dot separated numerals, an optional prerelease
follows the first dash, optional build metadata follows a single plus sign. -/
def parseSemVerChars (s : List Char) : Option SemVer :=
  match splitOnChar '+' s with
  | [] => none
  | main :: buildParts =>
    let buildOk :=
      match buildParts with
      | [] => true
      | [b] => (splitOnChar '.' b).all validBuildId
      | _ => false
    if !buildOk then none
    else
      match splitOnChar '-' main with
      | [] => none
      | core :: preParts =>
        match splitOnChar '.' core with
        | [ma, mi, pa] =>
          match parseNumericId ma, parseNumericId mi, parseNumericId pa with
          | some vMajor, some vMinor, some vPatch =>
            if preParts.isEmpty then some (SemVer.mk vMajor vMinor vPatch [])
            else
              let preStr := joinWithChar '-' preParts
              match (splitOnChar '.' preStr).mapM parsePreId with
              | some pre => some (SemVer.mk vMajor vMinor vPatch pre)
              | none => none
          | _, _, _ => none
        | _ => none

/-- semver.valid of semver.clean: trim whitespace, strip the leading run of
equals signs and the letter v, then parse strictly.  Returns none exactly when
the tag name is not a valid version after cleaning. -/
def cleanTag (s : String) : Option SemVer :=
  parseSemVerChars ((jsTrim s.toList).dropWhile (fun c => c == '=' || c == 'v'))

/-! ### The tag resolver getLatestTag -/

/-- A tag name together with its parsed version, the shape kept by the
validTags intermediate array of getLatestTag. -/
structure TaggedVersion where
  name : String
  version : SemVer
deriving DecidableEq, Repr

/-- The ordering predicate realised by sorting with the comparator
semver.rcompare: an element may precede another exactly when the comparator
value rcompare a b, that is compare of b with a, is at most zero. -/
def tvBefore (a b : TaggedVersion) : Prop :=
  semverCompare b.version a.version ≠ Ordering.gt

instance : DecidableRel tvBefore := fun a b =>
  inferInstanceAs (Decidable (semverCompare b.version a.version ≠ Ordering.gt))

/-- getLatestTag of the sync action, with the paginated tag listing already
collected into the list of tag names: return null on an empty listing, keep
the names whose cleaned form parses as a version, sort descending by semver
precedence with the stable comparison sort, and take the first name; return
null when no name survives the filter. -/
def getLatestTag (tagNames : List String) : Option String :=
  if tagNames.isEmpty then none
  else
    let validTags := tagNames.filterMap fun n =>
      (cleanTag n).map fun v => TaggedVersion.mk n v
    match List.insertionSort tvBefore validTags with
    | [] => none
    | t :: _ => some t.name

/-! ### Order properties of the semver comparator -/

theorem charCmp_swap (c d : Char) : charCmp c d = (charCmp d c).swap :=
  cmpN_swap c.toNat d.toNat

theorem charCmp_eq_of_eq (c d : Char) (h : charCmp c d = Ordering.eq) : c = d := by
  apply Char.ext
  exact UInt32.toNat.inj (cmpN_eq_eq.mp h)

theorem charCmp_lt_trans (a b c : Char) (h1 : charCmp a b = Ordering.lt)
    (h2 : charCmp b c = Ordering.lt) : charCmp a c = Ordering.lt :=
  cmpN_eq_lt.mpr (Nat.lt_trans (cmpN_eq_lt.mp h1) (cmpN_eq_lt.mp h2))

theorem cmpPreId_swap (a b : PreId) : cmpPreId a b = (cmpPreId b a).swap := by
  cases a <;> cases b <;> simp only [cmpPreId, Ordering.swap]
  case num.num x y => exact cmpN_swap x y
  case str.str x y => exact cmpList_swap charCmp charCmp_swap x.toList y.toList

theorem cmpPreId_eq_of_eq (a b : PreId) (h : cmpPreId a b = Ordering.eq) : a = b := by
  cases a <;> cases b
  case num.num x y =>
    simp only [cmpPreId] at h
    rw [cmpN_eq_eq.mp h]
  case num.str x y => exact absurd h (by simp [cmpPreId])
  case str.num x y => exact absurd h (by simp [cmpPreId])
  case str.str x y =>
    simp only [cmpPreId] at h
    have := cmpList_eq_of_eq charCmp charCmp_eq_of_eq x.toList y.toList h
    rw [String.ext this]

theorem cmpPreId_lt_trans (a b c : PreId) (h1 : cmpPreId a b = Ordering.lt)
    (h2 : cmpPreId b c = Ordering.lt) : cmpPreId a c = Ordering.lt := by
  cases a <;> cases b <;> cases c
  case num.num.num x y z =>
    simp only [cmpPreId] at h1 h2 ⊢
    exact cmpN_eq_lt.mpr (Nat.lt_trans (cmpN_eq_lt.mp h1) (cmpN_eq_lt.mp h2))
  case num.num.str x y z => rfl
  case num.str.num x y z => exact absurd h2 (by simp [cmpPreId])
  case num.str.str x y z => rfl
  case str.num.num x y z => exact absurd h1 (by simp [cmpPreId])
  case str.num.str x y z => exact absurd h1 (by simp [cmpPreId])
  case str.str.num x y z => exact absurd h2 (by simp [cmpPreId])
  case str.str.str x y z =>
    simp only [cmpPreId] at h1 h2 ⊢
    exact cmpList_lt_trans charCmp charCmp_eq_of_eq charCmp_lt_trans
      x.toList y.toList z.toList h1 h2

theorem cmpPre_swap (x y : List PreId) : cmpPre x y = (cmpPre y x).swap := by
  cases x <;> cases y
  case nil.nil => rfl
  case nil.cons b bs => rfl
  case cons.nil a as => rfl
  case cons.cons a as b bs =>
    exact cmpList_swap cmpPreId cmpPreId_swap (a :: as) (b :: bs)

theorem cmpPre_eq_of_eq (x y : List PreId) (h : cmpPre x y = Ordering.eq) : x = y := by
  cases x <;> cases y
  case nil.nil => rfl
  case nil.cons b bs => exact absurd h (by simp [cmpPre])
  case cons.nil a as => exact absurd h (by simp [cmpPre])
  case cons.cons a as b bs =>
    exact cmpList_eq_of_eq cmpPreId cmpPreId_eq_of_eq (a :: as) (b :: bs) h

theorem cmpPre_lt_trans (x y z : List PreId) (h1 : cmpPre x y = Ordering.lt)
    (h2 : cmpPre y z = Ordering.lt) : cmpPre x z = Ordering.lt := by
  cases x <;> cases y
  case nil.nil => exact absurd h1 (by simp [cmpPre])
  case nil.cons b bs => exact absurd h1 (by simp [cmpPre])
  case cons.nil a as =>
    cases z
    case nil => exact h1
    case cons c cs => exact absurd h2 (by simp [cmpPre])
  case cons.cons a as b bs =>
    cases z
    case nil => rfl
    case cons c cs =>
      exact cmpList_lt_trans cmpPreId cmpPreId_eq_of_eq cmpPreId_lt_trans
        (a :: as) (b :: bs) (c :: cs) h1 h2

theorem semverCompare_swap (a b : SemVer) : semverCompare a b = (semverCompare b a).swap := by
  unfold semverCompare
  rw [then_swap, then_swap, then_swap, ← cmpN_swap, ← cmpN_swap, ← cmpN_swap, ← cmpPre_swap]

theorem semverCompare_eq_of_eq (a b : SemVer) (h : semverCompare a b = Ordering.eq) :
    a = b := by
  unfold semverCompare at h
  have h1 := then_eq_eq.mp h
  have h2 := then_eq_eq.mp h1.2
  have h3 := then_eq_eq.mp h2.2
  cases a; cases b
  simp only [SemVer.mk.injEq]
  exact ⟨cmpN_eq_eq.mp h1.1, cmpN_eq_eq.mp h2.1, cmpN_eq_eq.mp h3.1,
    cmpPre_eq_of_eq _ _ h3.2⟩

theorem semverCompare_lt_trans (a b c : SemVer) (h1 : semverCompare a b = Ordering.lt)
    (h2 : semverCompare b c = Ordering.lt) : semverCompare a c = Ordering.lt := by
  unfold semverCompare at h1 h2 ⊢
  rcases then_eq_lt.mp h1 with hMa | ⟨hMa, h1r⟩
  · rcases then_eq_lt.mp h2 with hMb | ⟨hMb, h2r⟩
    · exact then_eq_lt.mpr (Or.inl (cmpN_eq_lt.mpr
        (Nat.lt_trans (cmpN_eq_lt.mp hMa) (cmpN_eq_lt.mp hMb))))
    · rw [cmpN_eq_eq.mp hMb] at hMa
      exact then_eq_lt.mpr (Or.inl hMa)
  · rcases then_eq_lt.mp h2 with hMb | ⟨hMb, h2r⟩
    · rw [cmpN_eq_eq.mp hMa]
      exact then_eq_lt.mpr (Or.inl hMb)
    · rw [cmpN_eq_eq.mp hMa, cmpN_eq_eq.mp hMb] at *
      apply then_eq_lt.mpr
      refine Or.inr ⟨cmpN_eq_eq.mpr rfl, ?_⟩
      rcases then_eq_lt.mp h1r with hma | ⟨hma, h1rr⟩
      · rcases then_eq_lt.mp h2r with hmb | ⟨hmb, h2rr⟩
        · exact then_eq_lt.mpr (Or.inl (cmpN_eq_lt.mpr
            (Nat.lt_trans (cmpN_eq_lt.mp hma) (cmpN_eq_lt.mp hmb))))
        · rw [cmpN_eq_eq.mp hmb] at hma
          exact then_eq_lt.mpr (Or.inl hma)
      · rcases then_eq_lt.mp h2r with hmb | ⟨hmb, h2rr⟩
        · rw [cmpN_eq_eq.mp hma]
          exact then_eq_lt.mpr (Or.inl hmb)
        · rw [cmpN_eq_eq.mp hma, cmpN_eq_eq.mp hmb] at *
          apply then_eq_lt.mpr
          refine Or.inr ⟨cmpN_eq_eq.mpr rfl, ?_⟩
          rcases then_eq_lt.mp h1rr with hpa | ⟨hpa, h1p⟩
          · rcases then_eq_lt.mp h2rr with hpb | ⟨hpb, h2p⟩
            · exact then_eq_lt.mpr (Or.inl (cmpN_eq_lt.mpr
                (Nat.lt_trans (cmpN_eq_lt.mp hpa) (cmpN_eq_lt.mp hpb))))
            · rw [cmpN_eq_eq.mp hpb] at hpa
              exact then_eq_lt.mpr (Or.inl hpa)
          · rcases then_eq_lt.mp h2rr with hpb | ⟨hpb, h2p⟩
            · rw [cmpN_eq_eq.mp hpa]
              exact then_eq_lt.mpr (Or.inl hpb)
            · rw [cmpN_eq_eq.mp hpa, cmpN_eq_eq.mp hpb] at *
              apply then_eq_lt.mpr
              exact Or.inr ⟨cmpN_eq_eq.mpr rfl, cmpPre_lt_trans _ _ _ h1p h2p⟩

/-- The semver order below or equal, as the comparator result not above. -/
theorem semver_le_trans (x y z : SemVer) (h1 : semverCompare x y ≠ Ordering.gt)
    (h2 : semverCompare y z ≠ Ordering.gt) : semverCompare x z ≠ Ordering.gt := by
  rcases hxy : semverCompare x y with _ | _ | _
  · rcases hyz : semverCompare y z with _ | _ | _
    · have := semverCompare_lt_trans x y z hxy hyz
      simp [this]
    · rw [← semverCompare_eq_of_eq y z hyz]
      simp [hxy]
    · exact absurd hyz h2
  · rw [semverCompare_eq_of_eq x y hxy]
    exact h2
  · exact absurd hxy h1

instance : IsTotal TaggedVersion tvBefore := by
  constructor
  intro a b
  unfold tvBefore
  by_contra h
  push_neg at h
  rw [semverCompare_swap] at h
  have h1 := swap_eq_gt.mp h.1
  rw [h1] at h
  exact absurd h.2 (by simp)

instance : IsTrans TaggedVersion tvBefore := by
  constructor
  intro a b c h1 h2
  exact semver_le_trans c.version b.version a.version h2 h1

theorem cmpList_refl (f : α → α → Ordering) (hf : ∀ a, f a a = Ordering.eq) :
    ∀ x : List α, cmpList f x x = Ordering.eq := by
  intro x
  induction x with
  | nil => rfl
  | cons a as ih =>
    show (f a a).then (cmpList f as as) = Ordering.eq
    rw [hf a, ih]
    rfl

theorem cmpPreId_refl (a : PreId) : cmpPreId a a = Ordering.eq := by
  cases a
  case num x => exact cmpN_eq_eq.mpr rfl
  case str x => exact cmpList_refl charCmp (fun c => cmpN_eq_eq.mpr rfl) x.toList

theorem cmpPre_refl (x : List PreId) : cmpPre x x = Ordering.eq := by
  cases x
  case nil => rfl
  case cons a as => exact cmpList_refl cmpPreId cmpPreId_refl (a :: as)

theorem semverCompare_refl (v : SemVer) : semverCompare v v = Ordering.eq := by
  unfold semverCompare
  rw [cmpN_eq_eq.mpr rfl, cmpN_eq_eq.mpr rfl, cmpN_eq_eq.mpr rfl, cmpPre_refl]
  rfl

/-- Full characterisation of the tag resolver: a returned name is a member of
the input whose cleaned version is defined and maximal under semver precedence
among all cleaned versions, and the resolver returns none exactly when no
input name cleans to a valid version. -/
theorem getLatestTag_spec (tagNames : List String) :
    (∀ nm, getLatestTag tagNames = some nm →
      nm ∈ tagNames ∧ ∃ v, cleanTag nm = some v ∧
        ∀ m ∈ tagNames, ∀ w, cleanTag m = some w → semverCompare w v ≠ Ordering.gt) ∧
    (getLatestTag tagNames = none ↔ ∀ n ∈ tagNames, cleanTag n = none) := by
  unfold getLatestTag
  by_cases hempty : tagNames.isEmpty
  · rw [List.isEmpty_iff] at hempty
    subst hempty
    simp
  · simp only [hempty, if_false]
    set validTags := tagNames.filterMap
      (fun n => (cleanTag n).map fun v => TaggedVersion.mk n v) with hvt
    have hsorted := List.sorted_insertionSort tvBefore validTags
    have hmemiff : ∀ x, x ∈ List.insertionSort tvBefore validTags ↔ x ∈ validTags :=
      fun x => List.mem_insertionSort tvBefore
    rcases hs : List.insertionSort tvBefore validTags with _ | ⟨t, rest⟩
    · constructor
      · intro nm hnm
        exact absurd hnm (by simp)
      · have hnilvt : validTags = [] := by
          have := List.perm_insertionSort tvBefore validTags
          rw [hs] at this
          exact (this.nil_eq).symm
        rw [hvt] at hnilvt
        have hallnone : ∀ n ∈ tagNames, cleanTag n = none := by
          intro n hn
          exact Option.map_eq_none'.mp (List.filterMap_eq_nil_iff.mp hnilvt n hn)
        constructor
        · intro _
          exact hallnone
        · intro _
          rfl
    · constructor
      · intro nm hnm
        have hnmt : nm = t.name := by
          simpa using hnm.symm
        subst hnmt
        have htmem : t ∈ validTags := by
          rw [← hmemiff t, hs]
          exact List.mem_cons_self t rest
        rw [hvt] at htmem
        rcases List.mem_filterMap.mp htmem with ⟨n, hn, hfn⟩
        rcases Option.map_eq_some'.mp hfn with ⟨v, hv, hmk⟩
        have hname : t.name = n := by rw [← hmk]
        have hver : t.version = v := by rw [← hmk]
        constructor
        · rw [hname]; exact hn
        · refine ⟨t.version, ?_, ?_⟩
          · rw [hname, hver]; exact hv
          · intro m hm w hw
            have hmv : TaggedVersion.mk m w ∈ validTags := by
              rw [hvt]
              exact List.mem_filterMap.mpr ⟨m, hm, by rw [hw]; rfl⟩
            rw [← hmemiff (TaggedVersion.mk m w), hs] at hmv
            rcases List.mem_cons.mp hmv with heq | hin
            · rw [← heq]
              show semverCompare (TaggedVersion.mk m w).version
                (TaggedVersion.mk m w).version ≠ Ordering.gt
              rw [semverCompare_refl]
              simp
            · rw [hs] at hsorted
              have := (List.pairwise_cons.mp hsorted).1 (TaggedVersion.mk m w) hin
              exact this
      · constructor
        · intro h
          exact absurd h (by simp)
        · intro hall
          exfalso
          have htmem : t ∈ validTags := by
            rw [← hmemiff t, hs]
            exact List.mem_cons_self t rest
          rw [hvt] at htmem
          rcases List.mem_filterMap.mp htmem with ⟨n, hn, hfn⟩
          rw [hall n hn] at hfn
          exact absurd hfn (by simp)

/-! ### The backoff controller retryWithGitHubRateLimit

The GitHub rate limit headers carry decimal numerals; the code converts them
with Number, where a missing header defaults to the numeral 0.  They are
modelled already parsed.  The retry-after field keeps its JavaScript
truthiness: the branch is taken exactly when the header string is present and
nonempty, and the header value 0 is modelled as some 0 because the string 0 is
truthy. -/

structure RLHeaders where
  limit : Option String
  remaining : Option Nat
  used : Option String
  reset : Option Nat
  resource : Option String
  retryAfter : Option Nat
deriving DecidableEq, Repr

structure GHResponse where
  status : Nat
  headers : RLHeaders
deriving DecidableEq, Repr

/-- An error thrown by the GitHub client: a message, and response metadata
when the error came from an HTTP response. -/
structure GHError where
  message : String
  response : Option GHResponse
deriving DecidableEq, Repr

/-- The outcome of one invocation of the wrapped asynchronous operation. -/
inductive OpStep (α : Type) where
  | ok (a : α)
  | raise (e : GHError)
deriving DecidableEq, Repr

/-- The status test of the transient classification: 403 or 429. -/
def isRateLimitStatus (s : Nat) : Bool := s == 403 || s == 429

/-- The delay before jitter, in milliseconds, following the priority order of
the code: primary limit when the remaining count is zero and the reset time
converted to milliseconds is truthy, then the retry-after duration, then
exponential backoff floored at sixty seconds. -/
def rawDelay (h : RLHeaders) (now : Int) (attempt baseDelay : Nat) : Int :=
  let remainingRequests := h.remaining.getD 0
  let rateLimitReset : Int := (h.reset.getD 0 : Int) * 1000
  if remainingRequests == 0 && rateLimitReset != 0 then
    rateLimitReset - now
  else
    match h.retryAfter with
    | some ra => (ra : Int) * 1000
    | none => max 60000 ((baseDelay : Int) * 2 ^ (attempt - 1))

/-- The delay actually slept: the raw delay clamped at zero, plus the random
jitter drawn from the interval from 0 inclusive to 1000 exclusive. -/
def finalDelay (h : RLHeaders) (now : Int) (attempt baseDelay : Nat) (jitter : ℚ) : ℚ :=
  ((max (rawDelay h now attempt baseDelay) 0 : Int) : ℚ) + jitter

/-- How one run of retryWithGitHubRateLimit can end: a value from the
operation, a rethrown non transient error, the rate limit exceeded error
built on the final attempt carrying the resource, limit and used diagnostics
of the last seen response, or the unreachable throw after the loop. -/
inductive GHRetryResult (α : Type) where
  | success (a : α)
  | reraised (e : GHError)
  | exhausted (resource limit used : Option String)
  | unreachablePostLoop
deriving DecidableEq, Repr

/-- One run of the retry loop body of retryWithGitHubRateLimit, from a given
attempt number with the given loop iterations remaining.  The operation is a
function from the attempt number to its outcome; the current time and the
jitter draw of each iteration are oracles indexed by the attempt number.
Returns the result, the number of operation invocations performed, and the
list of delays slept. -/
def retryGHLoop (op : Nat → OpStep α) (maxAttempts baseDelay : Nat)
    (nowAt : Nat → Int) (jitterAt : Nat → ℚ) :
    Nat → Nat → GHRetryResult α × Nat × List ℚ
  | _, 0 => (GHRetryResult.unreachablePostLoop, 0, [])
  | attempt, fuel + 1 =>
    match op attempt with
    | OpStep.ok a => (GHRetryResult.success a, 1, [])
    | OpStep.raise e =>
      match e.response with
      | none => (GHRetryResult.reraised e, 1, [])
      | some resp =>
        if isRateLimitStatus resp.status then
          if maxAttempts ≤ attempt then
            (GHRetryResult.exhausted resp.headers.resource resp.headers.limit
              resp.headers.used, 1, [])
          else
            let d := finalDelay resp.headers (nowAt attempt) attempt baseDelay
              (jitterAt attempt)
            let rest := retryGHLoop op maxAttempts baseDelay nowAt jitterAt
              (attempt + 1) fuel
            (rest.1, rest.2.1 + 1, d :: rest.2.2)
        else
          (GHRetryResult.reraised e, 1, [])

/-- retryWithGitHubRateLimit: the loop runs for attempt numbers one through
maxAttempts; falling out of the loop is the unreachable trailing throw. -/
def retryWithGitHubRateLimit (op : Nat → OpStep α) (maxAttempts baseDelay : Nat)
    (nowAt : Nat → Int) (jitterAt : Nat → ℚ) : GHRetryResult α × Nat × List ℚ :=
  retryGHLoop op maxAttempts baseDelay nowAt jitterAt 1 maxAttempts

/-! ### The simple variant retryWithBackoff -/

/-- A JavaScript exception value as the simple variant inspects it: whether it
is an Error instance, and its message. -/
structure JSError where
  isError : Bool
  message : String
deriving DecidableEq, Repr

inductive BOpStep (α : Type) where
  | ok (a : α)
  | raise (e : JSError)
deriving DecidableEq, Repr

/-- How one run of retryWithBackoff can end: on the final attempt a transient
error is rethrown as is, so both throw paths rethrow the original error. -/
inductive BRetryResult (α : Type) where
  | success (a : α)
  | thrown (e : JSError)
  | unreachablePostLoop
deriving DecidableEq, Repr

/-- JavaScript String.prototype.includes for a fixed pattern: some contiguous
run of the text equals the pattern. -/
def containsSubstring (pat : List Char) : List Char → Bool
  | [] => pat.isEmpty
  | c :: rest => pat.isPrefixOf (c :: rest) || containsSubstring pat rest

/-- The transient test of the simple variant: an Error instance whose message
contains the text rate limit. -/
def isRateLimitMessage (msg : String) : Bool :=
  containsSubstring "rate limit".toList msg.toList

/-- The loop body of retryWithBackoff: rethrow unless the error is an Error
instance with a rate limit message and attempts remain, else sleep the
exponential delay plus jitter and try again. -/
def retryBLoop (op : Nat → BOpStep α) (maxAttempts baseDelay : Nat)
    (jitterAt : Nat → ℚ) : Nat → Nat → BRetryResult α × Nat × List ℚ
  | _, 0 => (BRetryResult.unreachablePostLoop, 0, [])
  | attempt, fuel + 1 =>
    match op attempt with
    | BOpStep.ok a => (BRetryResult.success a, 1, [])
    | BOpStep.raise e =>
      if !e.isError || !isRateLimitMessage e.message || maxAttempts ≤ attempt then
        (BRetryResult.thrown e, 1, [])
      else
        let d := (baseDelay : ℚ) * 2 ^ (attempt - 1) + jitterAt attempt
        let rest := retryBLoop op maxAttempts baseDelay jitterAt (attempt + 1) fuel
        (rest.1, rest.2.1 + 1, d :: rest.2.2)

/-- retryWithBackoff of the sync and tag-on-merge actions. -/
def retryWithBackoff (op : Nat → BOpStep α) (maxAttempts baseDelay : Nat)
    (jitterAt : Nat → ℚ) : BRetryResult α × Nat × List ℚ :=
  retryBLoop op maxAttempts baseDelay jitterAt 1 maxAttempts

/-! ### The sync state checker checkExistingSync

The remote state the checker queries is modelled as the list of issues and
pull requests of the target repository.  In the GitHub data model every pull
request is an issue; an item is a pull request exactly when it carries the
pull_request key. -/

/-- One issue or pull request of the target repository. -/
structure RepoItem where
  labels : List String
  isPullRequest : Bool
  createdAt : Nat
deriving DecidableEq, Repr

def itemHasLabel (i : RepoItem) (l : String) : Bool := i.labels.contains l

/-- checkExistingSync of upstream-tag-sync src/index.ts: the search API query
restricted to the repository, the sync label, and is:pr, succeeding when the
total count is positive. -/
def searchTotalCount (items : List RepoItem) (syncLabel : String) : Nat :=
  (items.filter fun i => i.isPullRequest && itemHasLabel i syncLabel).length

def checkExistingSyncSearch (items : List RepoItem) (syncLabel : String) : Bool :=
  decide (0 < searchTotalCount items syncLabel)

/-- The ordering used by the list based variant: issues sorted by creation
time, newest first. -/
def createdDesc (a b : RepoItem) : Prop := b.createdAt ≤ a.createdAt

instance : DecidableRel createdDesc := fun a b =>
  inferInstanceAs (Decidable (b.createdAt ≤ a.createdAt))

/-- checkExistingSync of the hardened variant: issues.listForRepo filtered by
the sync label in state all, sorted by creation descending, first page of
size one, then some over the pull_request key of the returned items. -/
def checkExistingSyncList (items : List RepoItem) (syncLabel : String) : Bool :=
  let labeled := items.filter fun i => itemHasLabel i syncLabel
  let sorted := List.insertionSort createdDesc labeled
  (sorted.take 1).any fun i => i.isPullRequest

/-! ### The sync action entry point run

The worlds the entry point interacts with are oracles: the upstream tag
listing, the target repository items read by the sync state checker, the
default branch of the target, and the number of a created pull request.
Every remote interaction is recorded in an effect trace in program order;
the retry wrappers around the individual calls are modelled by the retry
functions above and are identities on succeeding calls. -/

structure SyncWorld where
  upstreamTags : List String
  targetItems : List RepoItem
  defaultBranch : String
  prNumber : Nat
deriving DecidableEq, Repr

/-- The named inputs of the action, none meaning missing or empty, which the
required input lookup rejects. -/
structure SyncInputs where
  targetRepo : Option String
  upstreamRepo : Option String
  githubToken : Option String
deriving DecidableEq, Repr

/-- A remote interaction of the sync run: an API read, a git subprocess, or
an API write. -/
inductive Effect where
  | apiListTags (owner repo : String)
  | apiSearchIssues (owner repo label : String)
  | apiGetRepo (owner repo : String)
  | gitExec (args : List String)
  | apiCreatePullRequest (owner repo title head base : String)
  | apiAddLabels (owner repo : String) (labels : List String)
deriving DecidableEq, Repr

/-- Whether an effect mutates remote or local state. -/
def Effect.isWrite : Effect → Bool
  | Effect.gitExec _ => true
  | Effect.apiCreatePullRequest _ _ _ _ _ => true
  | Effect.apiAddLabels _ _ _ => true
  | _ => false

/-- Destructuring const [a, b] = s.split(sep): missing components become the
empty string, which is falsy exactly like undefined under the validation
below; components beyond the second are ignored. -/
def splitComponent (s : String) (i : Nat) : String :=
  String.mk ((splitOnChar '/' s.toList).getD i [])

/-- run of upstream-tag-sync src/index.ts.  The result is the outcome at the
top level catch: error means the run called setFailed with that message. -/
def runSync (inp : SyncInputs) (w : SyncWorld) : Except String Unit × List Effect :=
  match inp.targetRepo with
  | none => (Except.error "Input required and not supplied: target-repo", [])
  | some targetRepo =>
    match inp.upstreamRepo with
    | none => (Except.error "Input required and not supplied: upstream-repo", [])
    | some upstreamRepo =>
      match inp.githubToken with
      | none => (Except.error "Input required and not supplied: github-token", [])
      | some _token =>
        let upstreamOwner := splitComponent upstreamRepo 0
        let upstreamRepoName := splitComponent upstreamRepo 1
        let targetOwner := splitComponent targetRepo 0
        let targetRepoName := splitComponent targetRepo 1
        if upstreamOwner = "" ∨ upstreamRepoName = "" ∨
            targetOwner = "" ∨ targetRepoName = "" then
          (Except.error "Invalid repository format", [])
        else
          let readTags : List Effect := [Effect.apiListTags upstreamOwner upstreamRepoName]
          match getLatestTag w.upstreamTags with
          | none => (Except.ok (), readTags)
          | some latestTag =>
            let syncLabel := "sync/upstream-" ++ latestTag
            let afterSearch := readTags ++
              [Effect.apiSearchIssues targetOwner targetRepoName syncLabel]
            if checkExistingSyncSearch w.targetItems syncLabel then
              (Except.ok (), afterSearch)
            else
              let branchName := "sync/upstream-" ++ latestTag
              let afterRepo := afterSearch ++ [Effect.apiGetRepo targetOwner targetRepoName]
              let gitSteps : List Effect := [
                Effect.gitExec ["config", "--global", "user.name", "github-actions[bot]"],
                Effect.gitExec ["config", "--global", "user.email",
                  "github-actions[bot]@users.noreply.github.com"],
                Effect.gitExec ["remote", "add", "upstream",
                  "https://github.com/" ++ upstreamRepo ++ ".git"],
                Effect.gitExec ["fetch", "upstream",
                  "refs/tags/" ++ latestTag ++ ":refs/tags/" ++ latestTag, "--no-tags"],
                Effect.gitExec ["checkout", "-b", branchName, latestTag],
                Effect.gitExec ["push", "origin", branchName, "--force"]]
              let prTitle := "Sync: Update to upstream " ++ latestTag
              let allEffects := afterRepo ++ gitSteps ++
                [Effect.apiCreatePullRequest targetOwner targetRepoName prTitle
                  branchName w.defaultBranch,
                 Effect.apiAddLabels targetOwner targetRepoName ["sync", syncLabel]]
              (Except.ok (), allEffects)

/-! ### The tag-on-merge action -/

/-- Line terminators of JavaScript regular expressions, which the dot does
not match. -/
def isLineTerm (c : Char) : Bool :=
  c == '\n' || c == '\r' || c == '\u2028' || c == '\u2029'

/-- extractTagFromBranch: match the branch name against the anchored pattern
sync slash upstream dash followed by one or more dot matched characters, and
return the capture. -/
def extractTagFromBranch (branchName : String) : Option String :=
  let pat := "sync/upstream-".toList
  let cs := branchName.toList
  if pat.isPrefixOf cs then
    let rest := cs.drop pat.length
    if !rest.isEmpty && rest.all (fun c => !isLineTerm c) then
      some (String.mk rest)
    else none
  else none

/-- The pull request record of the webhook payload, as far as the action
reads it.  The merge commit sha is none when the field is null, undefined or
the empty string, all falsy. -/
structure PRPayload where
  merged : Bool
  headRef : String
  number : Nat
  mergeCommitSha : Option String
deriving DecidableEq, Repr

/-- The pull_request entry of the event payload: absent, present but failing
the isPullRequest field shape guard, or well formed. -/
inductive PayloadPR where
  | missing
  | malformed
  | wellFormed (pr : PRPayload)
deriving DecidableEq, Repr

/-- A remote write of the tag-on-merge action. -/
inductive TagEffect where
  | createTag (tag message sha : String)
  | createRef (ref : String)
deriving DecidableEq, Repr

/-- run of upstream-tag-on-merge src/index.ts: skip silently unless the
payload is a well formed merged pull request; read the required token; skip
silently unless the head branch matches the sync pattern; fail when the merge
commit sha is falsy; otherwise create the tag object and its reference. -/
def runTagOnMerge (payload : PayloadPR) (githubToken : Option String) :
    Except String Unit × List TagEffect :=
  match payload with
  | PayloadPR.missing => (Except.ok (), [])
  | PayloadPR.malformed => (Except.ok (), [])
  | PayloadPR.wellFormed pr =>
    if !pr.merged then (Except.ok (), [])
    else
      match githubToken with
      | none => (Except.error "Input required and not supplied: github-token", [])
      | some _token =>
        match extractTagFromBranch pr.headRef with
        | none => (Except.ok (), [])
        | some tagName =>
          let message := "Tag created from sync PR " ++ toString pr.number
          match pr.mergeCommitSha with
          | none => (Except.error "Merge commit SHA is undefined", [])
          | some sha =>
            (Except.ok (),
              [TagEffect.createTag tagName message sha,
               TagEffect.createRef ("refs/tags/" ++ tagName)])

/-! ### Behaviour of the retry loops -/

theorem retryGHLoop_exhausts (op : Nat → OpStep α) (es : Nat → GHError)
    (maxAttempts baseDelay : Nat) (nowAt : Nat → Int) (jitterAt : Nat → ℚ)
    (hops : ∀ i, op i = OpStep.raise (es i))
    (htrans : ∀ i, ∃ resp, (es i).response = some resp ∧
      isRateLimitStatus resp.status = true) :
    ∀ fuel attempt, 1 ≤ fuel → attempt + fuel = maxAttempts + 1 →
      (retryGHLoop op maxAttempts baseDelay nowAt jitterAt attempt fuel).2.1 = fuel ∧
      ∃ resp, (es maxAttempts).response = some resp ∧
        (retryGHLoop op maxAttempts baseDelay nowAt jitterAt attempt fuel).1 =
          GHRetryResult.exhausted resp.headers.resource resp.headers.limit
            resp.headers.used := by
  intro fuel
  induction fuel with
  | zero => intro attempt h1 _; exact absurd h1 (by omega)
  | succ f ih =>
    intro attempt _ hsum
    rcases htrans attempt with ⟨resp, hr, hst⟩
    rcases Nat.eq_zero_or_pos f with hf | hf
    · subst hf
      have hat : attempt = maxAttempts := by omega
      subst hat
      simp only [retryGHLoop, hops, hr, hst, if_true, le_refl]
      exact ⟨trivial, resp, rfl, rfl⟩
    · have hlt : ¬ maxAttempts ≤ attempt := by omega
      have hrec := ih (attempt + 1) (by omega) (by omega)
      simp only [retryGHLoop, hops, hr, hst, if_true, hlt, if_false]
      refine ⟨by rw [hrec.1], ?_⟩
      rcases hrec.2 with ⟨resp2, hr2, hres2⟩
      exact ⟨resp2, hr2, hres2⟩

theorem retryBLoop_exhausts (op : Nat → BOpStep α) (es : Nat → JSError)
    (maxAttempts baseDelay : Nat) (jitterAt : Nat → ℚ)
    (hops : ∀ i, op i = BOpStep.raise (es i))
    (htrans : ∀ i, (es i).isError = true ∧ isRateLimitMessage (es i).message = true) :
    ∀ fuel attempt, 1 ≤ fuel → attempt + fuel = maxAttempts + 1 →
      (retryBLoop op maxAttempts baseDelay jitterAt attempt fuel).2.1 = fuel ∧
      (retryBLoop op maxAttempts baseDelay jitterAt attempt fuel).1 =
        BRetryResult.thrown (es maxAttempts) := by
  intro fuel
  induction fuel with
  | zero => intro attempt h1 _; exact absurd h1 (by omega)
  | succ f ih =>
    intro attempt _ hsum
    rcases htrans attempt with ⟨he, hm⟩
    rcases Nat.eq_zero_or_pos f with hf | hf
    · subst hf
      have hat : attempt = maxAttempts := by omega
      subst hat
      simp only [retryBLoop, hops, he, hm, le_refl]
      simp
    · have hlt : ¬ maxAttempts ≤ attempt := by omega
      have hrec := ih (attempt + 1) (by omega) (by omega)
      simp only [retryBLoop, hops, he, hm, hlt]
      rw [if_neg (by simp [hlt, he, hm])]
      exact ⟨by rw [hrec.1], hrec.2⟩

theorem retryGHLoop_ne_unreachable (op : Nat → OpStep α) (maxAttempts baseDelay : Nat)
    (nowAt : Nat → Int) (jitterAt : Nat → ℚ) :
    ∀ fuel attempt, 1 ≤ fuel → attempt + fuel = maxAttempts + 1 →
      (retryGHLoop op maxAttempts baseDelay nowAt jitterAt attempt fuel).1 ≠
        GHRetryResult.unreachablePostLoop := by
  intro fuel
  induction fuel with
  | zero => intro attempt h1 _; exact absurd h1 (by omega)
  | succ f ih =>
    intro attempt _ hsum
    rcases ho : op attempt with a | e
    · simp [retryGHLoop, ho]
    · rcases hr : e.response with _ | resp
      · simp [retryGHLoop, ho, hr]
      · by_cases hst : isRateLimitStatus resp.status
        · by_cases hmax : maxAttempts ≤ attempt
          · simp [retryGHLoop, ho, hr, hst, hmax]
          · have hf1 : 1 ≤ f := by omega
            have := ih (attempt + 1) hf1 (by omega)
            simp only [retryGHLoop, ho, hr, hst, if_true, hmax, if_false]
            exact this
        · simp [retryGHLoop, ho, hr, hst]

theorem retryBLoop_ne_unreachable (op : Nat → BOpStep α) (maxAttempts baseDelay : Nat)
    (jitterAt : Nat → ℚ) :
    ∀ fuel attempt, 1 ≤ fuel → attempt + fuel = maxAttempts + 1 →
      (retryBLoop op maxAttempts baseDelay jitterAt attempt fuel).1 ≠
        BRetryResult.unreachablePostLoop := by
  intro fuel
  induction fuel with
  | zero => intro attempt h1 _; exact absurd h1 (by omega)
  | succ f ih =>
    intro attempt _ hsum
    rcases ho : op attempt with a | e
    · simp [retryBLoop, ho]
    · by_cases hcond : (!e.isError || !isRateLimitMessage e.message ||
        decide (maxAttempts ≤ attempt)) = true
      · simp [retryBLoop, ho, hcond]
      · have hmax : ¬ maxAttempts ≤ attempt := by
          intro hle
          apply hcond
          simp [hle]
        have hf1 : 1 ≤ f := by omega
        have := ih (attempt + 1) hf1 (by omega)
        simp only [retryBLoop, ho]
        rw [if_neg hcond]
        exact this

theorem retryGHLoop_success_from_op (op : Nat → OpStep α) (maxAttempts baseDelay : Nat)
    (nowAt : Nat → Int) (jitterAt : Nat → ℚ) :
    ∀ fuel attempt a,
      (retryGHLoop op maxAttempts baseDelay nowAt jitterAt attempt fuel).1 =
        GHRetryResult.success a →
      ∃ i, attempt ≤ i ∧ i < attempt + fuel ∧ op i = OpStep.ok a := by
  intro fuel
  induction fuel with
  | zero =>
    intro attempt a h
    exact absurd h (by simp [retryGHLoop])
  | succ f ih =>
    intro attempt a h
    rcases ho : op attempt with b | e
    · simp only [retryGHLoop, ho] at h
      have hba : b = a := by
        have := h
        simpa using this
      refine ⟨attempt, le_refl attempt, by omega, ?_⟩
      rw [ho, hba]
    · rcases hr : e.response with _ | resp
      · simp [retryGHLoop, ho, hr] at h
      · by_cases hst : isRateLimitStatus resp.status
        · by_cases hmax : maxAttempts ≤ attempt
          · simp [retryGHLoop, ho, hr, hst, hmax] at h
          · simp only [retryGHLoop, ho, hr, hst, if_true, hmax, if_false] at h
            rcases ih (attempt + 1) a h with ⟨i, hi1, hi2, hi3⟩
            exact ⟨i, by omega, by omega, hi3⟩
        · simp [retryGHLoop, ho, hr, hst] at h

/-! ### Concrete data used by witnesses and counterexamples -/

/-- Headers of a primary rate limit response: zero remaining, reset thirty
seconds after epoch zero. -/
def c1Headers : RLHeaders :=
  RLHeaders.mk (some "5000") (some 0) (some "5000") (some 30) (some "core") none

/-- A transient error: HTTP 403 carrying the primary limit headers. -/
def transientError : GHError := GHError.mk "rate limited" (some (GHResponse.mk 403 c1Headers))

/-- A non transient error: HTTP 404 with response metadata. -/
def notFoundError : GHError :=
  GHError.mk "Not Found" (some (GHResponse.mk 404 (RLHeaders.mk none none none none none none)))

/-- A non transient plain error without response metadata. -/
def plainJSError : JSError := JSError.mk true "Not Found"

/-- A transient error for the simple variant. -/
def transientJSError : JSError := JSError.mk true "API rate limit exceeded"

/-! ### The claims -/

/-- Claim C1: for every transient error caught with a retry remaining, the
computed delay follows the priority order: when the response reports zero
remaining requests and a nonzero reset time the delay is the reset time minus
the current time; otherwise when a retry-after duration is present the delay
is that duration in milliseconds; otherwise the delay is the maximum of 60000
milliseconds and baseDelay times two to the attempt minus one; in every case
the delay is clamped to be non negative and a random jitter in the interval
from 0 inclusive to 1000 exclusive is added, so for remaining zero and reset
thirty seconds after now the delay is at least 30000 and below 31000
milliseconds. -/
theorem c1_delay_priority (h : RLHeaders) (now : Int) (attempt baseDelay : Nat)
    (jitter : ℚ) (hj0 : 0 ≤ jitter) (hj1 : jitter < 1000) :
    (0 ≤ finalDelay h now attempt baseDelay jitter) ∧
    (h.remaining.getD 0 = 0 → h.reset.getD 0 ≠ 0 →
      finalDelay h now attempt baseDelay jitter =
        ((max ((h.reset.getD 0 : Int) * 1000 - now) 0 : Int) : ℚ) + jitter) ∧
    (¬ (h.remaining.getD 0 = 0 ∧ h.reset.getD 0 ≠ 0) →
      ∀ ra, h.retryAfter = some ra →
        finalDelay h now attempt baseDelay jitter = (ra : ℚ) * 1000 + jitter) ∧
    (¬ (h.remaining.getD 0 = 0 ∧ h.reset.getD 0 ≠ 0) → h.retryAfter = none →
      finalDelay h now attempt baseDelay jitter =
        max 60000 ((baseDelay : ℚ) * 2 ^ (attempt - 1)) + jitter) ∧
    (h.remaining.getD 0 = 0 → (h.reset.getD 0 : Int) * 1000 = now + 30000 → 0 ≤ now →
      30000 ≤ finalDelay h now attempt baseDelay jitter ∧
        finalDelay h now attempt baseDelay jitter < 31000) := by
  have hnonneg : 0 ≤ finalDelay h now attempt baseDelay jitter := by
    unfold finalDelay
    have h1 : (0 : Int) ≤ max (rawDelay h now attempt baseDelay) 0 := le_max_right _ _
    have h2 : (0 : ℚ) ≤ ((max (rawDelay h now attempt baseDelay) 0 : Int) : ℚ) := by
      exact_mod_cast h1
    linarith
  refine ⟨hnonneg, ?_, ?_, ?_, ?_⟩
  · intro hrem hres
    have hcond : ((h.remaining.getD 0 == 0) &&
        ((h.reset.getD 0 : Int) * 1000 != 0)) = true := by
      simp only [Bool.and_eq_true, beq_iff_eq, bne_iff_ne]
      refine ⟨hrem, ?_⟩
      intro hzero
      rcases Int.mul_eq_zero.mp hzero with hz | hz
      · exact hres (by exact_mod_cast hz)
      · norm_num at hz
    unfold finalDelay rawDelay
    rw [if_pos hcond]
  · intro hnotp ra hra
    have hcond : ¬ (((h.remaining.getD 0 == 0) &&
        ((h.reset.getD 0 : Int) * 1000 != 0)) = true) := by
      simp only [Bool.and_eq_true, beq_iff_eq, bne_iff_ne]
      rintro ⟨h1, h2⟩
      exact hnotp ⟨h1, fun hz => h2 (by rw [hz]; norm_num)⟩
    unfold finalDelay rawDelay
    rw [if_neg hcond]
    simp only [hra]
    have hmx : max ((ra : Int) * 1000) 0 = (ra : Int) * 1000 :=
      max_eq_left (by positivity)
    rw [hmx]
    push_cast
    ring
  · intro hnotp hra
    have hcond : ¬ (((h.remaining.getD 0 == 0) &&
        ((h.reset.getD 0 : Int) * 1000 != 0)) = true) := by
      simp only [Bool.and_eq_true, beq_iff_eq, bne_iff_ne]
      rintro ⟨h1, h2⟩
      exact hnotp ⟨h1, fun hz => h2 (by rw [hz]; norm_num)⟩
    unfold finalDelay rawDelay
    rw [if_neg hcond]
    simp only [hra]
    have hge : (0 : Int) ≤ max 60000 ((baseDelay : Int) * 2 ^ (attempt - 1)) :=
      le_trans (by norm_num) (le_max_left _ _)
    rw [max_eq_left hge]
    rw [Int.cast_max]
    push_cast
    ring_nf
  · intro hrem hreseq hnow
    have hres : h.reset.getD 0 ≠ 0 := by
      intro hz
      rw [hz] at hreseq
      norm_num at hreseq
      omega
    have hcond : ((h.remaining.getD 0 == 0) &&
        ((h.reset.getD 0 : Int) * 1000 != 0)) = true := by
      simp only [Bool.and_eq_true, beq_iff_eq, bne_iff_ne]
      refine ⟨hrem, ?_⟩
      intro hzero
      rcases Int.mul_eq_zero.mp hzero with hz | hz
      · exact hres (by exact_mod_cast hz)
      · norm_num at hz
    unfold finalDelay rawDelay
    rw [if_pos hcond, hreseq]
    have hsub : now + 30000 - now = (30000 : Int) := by ring
    rw [hsub]
    have hmx : max (30000 : Int) 0 = 30000 := by norm_num
    rw [hmx]
    norm_num
    constructor <;> linarith

/-- Witness for C1 at the concrete primary limit headers, time zero, first
attempt, base delay 1000 and jitter one half. -/
theorem c1_delay_priority_witness :
    (0 ≤ finalDelay c1Headers 0 1 1000 (1 / 2)) ∧
    (c1Headers.remaining.getD 0 = 0 → c1Headers.reset.getD 0 ≠ 0 →
      finalDelay c1Headers 0 1 1000 (1 / 2) =
        ((max ((c1Headers.reset.getD 0 : Int) * 1000 - 0) 0 : Int) : ℚ) + 1 / 2) ∧
    (¬ (c1Headers.remaining.getD 0 = 0 ∧ c1Headers.reset.getD 0 ≠ 0) →
      ∀ ra, c1Headers.retryAfter = some ra →
        finalDelay c1Headers 0 1 1000 (1 / 2) = (ra : ℚ) * 1000 + 1 / 2) ∧
    (¬ (c1Headers.remaining.getD 0 = 0 ∧ c1Headers.reset.getD 0 ≠ 0) →
      c1Headers.retryAfter = none →
      finalDelay c1Headers 0 1 1000 (1 / 2) =
        max 60000 ((1000 : ℚ) * 2 ^ (1 - 1)) + 1 / 2) ∧
    (c1Headers.remaining.getD 0 = 0 →
      (c1Headers.reset.getD 0 : Int) * 1000 = 0 + 30000 → (0 : Int) ≤ 0 →
      30000 ≤ finalDelay c1Headers 0 1 1000 (1 / 2) ∧
        finalDelay c1Headers 0 1 1000 (1 / 2) < 31000) :=
  c1_delay_priority c1Headers 0 1 1000 (1 / 2) (by norm_num) (by norm_num)

/-- Claim C2: an operation that raises a transient rate limited error on every
invocation is, under retryWithGitHubRateLimit, invoked exactly maxAttempts
times, never fewer, never more, and the run fails with the retry exhausted
error carrying the resource, limit and used diagnostics of the last seen
response; the simple variant retryWithBackoff likewise invokes it exactly
maxAttempts times and then fails by rethrowing the last transient error. -/
theorem c2_retry_exhaustion {α : Type} (op : Nat → OpStep α) (es : Nat → GHError)
    (opB : Nat → BOpStep α) (esB : Nat → JSError)
    (maxAttempts baseDelay : Nat) (nowAt : Nat → Int) (jitterAt : Nat → ℚ)
    (hops : ∀ i, op i = OpStep.raise (es i))
    (htrans : ∀ i, ∃ resp, (es i).response = some resp ∧
      isRateLimitStatus resp.status = true)
    (hopsB : ∀ i, opB i = BOpStep.raise (esB i))
    (htransB : ∀ i, (esB i).isError = true ∧ isRateLimitMessage (esB i).message = true)
    (hmax : 1 ≤ maxAttempts) :
    ((retryWithGitHubRateLimit op maxAttempts baseDelay nowAt jitterAt).2.1 =
        maxAttempts ∧
      ∃ resp, (es maxAttempts).response = some resp ∧
        (retryWithGitHubRateLimit op maxAttempts baseDelay nowAt jitterAt).1 =
          GHRetryResult.exhausted resp.headers.resource resp.headers.limit
            resp.headers.used) ∧
    ((retryWithBackoff opB maxAttempts baseDelay jitterAt).2.1 = maxAttempts ∧
      (retryWithBackoff opB maxAttempts baseDelay jitterAt).1 =
        BRetryResult.thrown (esB maxAttempts)) := by
  constructor
  · exact retryGHLoop_exhausts op es maxAttempts baseDelay nowAt jitterAt hops htrans
      maxAttempts 1 hmax (by omega)
  · exact retryBLoop_exhausts opB esB maxAttempts baseDelay jitterAt hopsB htransB
      maxAttempts 1 hmax (by omega)

theorem transientJSError_isRL : isRateLimitMessage transientJSError.message = true := by
  decide

theorem transientError_resp :
    ∃ resp, transientError.response = some resp ∧ isRateLimitStatus resp.status = true :=
  ⟨GHResponse.mk 403 c1Headers, rfl, rfl⟩

/-- Witness for C2: the always failing operations at maxAttempts three. -/
theorem c2_retry_exhaustion_witness :
    (((retryWithGitHubRateLimit (fun _ => OpStep.raise transientError : Nat → OpStep Nat)
        3 1000 (fun _ => 0) (fun _ => 0)).2.1 = 3 ∧
      ∃ resp, transientError.response = some resp ∧
        (retryWithGitHubRateLimit (fun _ => OpStep.raise transientError : Nat → OpStep Nat)
          3 1000 (fun _ => 0) (fun _ => 0)).1 =
          GHRetryResult.exhausted resp.headers.resource resp.headers.limit
            resp.headers.used) ∧
    ((retryWithBackoff (fun _ => BOpStep.raise transientJSError : Nat → BOpStep Nat)
        3 1000 (fun _ => 0)).2.1 = 3 ∧
      (retryWithBackoff (fun _ => BOpStep.raise transientJSError : Nat → BOpStep Nat)
        3 1000 (fun _ => 0)).1 = BRetryResult.thrown transientJSError)) :=
  c2_retry_exhaustion (fun _ => OpStep.raise transientError) (fun _ => transientError)
    (fun _ => BOpStep.raise transientJSError) (fun _ => transientJSError)
    3 1000 (fun _ => 0) (fun _ => 0)
    (fun _ => rfl) (fun _ => transientError_resp)
    (fun _ => rfl) (fun _ => ⟨rfl, transientJSError_isRL⟩)
    (by omega)

/-- Claim C3: an operation whose first invocation raises a non transient
error is, under either retry helper, invoked exactly once; the error is
rethrown on the first attempt with no sleep. -/
theorem c3_nontransient_immediate {α : Type} (op : Nat → OpStep α) (e : GHError)
    (opB : Nat → BOpStep α) (eB : JSError)
    (maxAttempts baseDelay : Nat) (nowAt : Nat → Int) (jitterAt : Nat → ℚ)
    (hop : op 1 = OpStep.raise e)
    (hnt : e.response = none ∨
      ∃ resp, e.response = some resp ∧ isRateLimitStatus resp.status = false)
    (hopB : opB 1 = BOpStep.raise eB)
    (hntB : eB.isError = false ∨ isRateLimitMessage eB.message = false)
    (hmax : 1 ≤ maxAttempts) :
    retryWithGitHubRateLimit op maxAttempts baseDelay nowAt jitterAt =
      (GHRetryResult.reraised e, 1, []) ∧
    retryWithBackoff opB maxAttempts baseDelay jitterAt =
      (BRetryResult.thrown eB, 1, []) := by
  rcases maxAttempts with _ | m
  · exact absurd hmax (by omega)
  constructor
  · rcases hnt with hr | ⟨resp, hr, hst⟩
    · simp [retryWithGitHubRateLimit, retryGHLoop, hop, hr]
    · simp [retryWithGitHubRateLimit, retryGHLoop, hop, hr, hst]
  · rcases hntB with he | hm2
    · simp [retryWithBackoff, retryBLoop, hopB, he]
    · simp [retryWithBackoff, retryBLoop, hopB, hm2]

/-- Witness for C3: a 404 error under both helpers at maxAttempts five. -/
theorem c3_nontransient_immediate_witness :
    retryWithGitHubRateLimit (fun _ => OpStep.raise notFoundError : Nat → OpStep Nat)
      5 1000 (fun _ => 0) (fun _ => 0) = (GHRetryResult.reraised notFoundError, 1, []) ∧
    retryWithBackoff (fun _ => BOpStep.raise plainJSError : Nat → BOpStep Nat)
      5 1000 (fun _ => 0) = (BRetryResult.thrown plainJSError, 1, []) :=
  c3_nontransient_immediate (fun _ => OpStep.raise notFoundError) notFoundError
    (fun _ => BOpStep.raise plainJSError) plainJSError
    5 1000 (fun _ => 0) (fun _ => 0) rfl
    (Or.inr ⟨GHResponse.mk 404 (RLHeaders.mk none none none none none none), rfl, rfl⟩)
    rfl (Or.inr (by decide)) (by omega)

/-- Claim C10: for every maxAttempts at least one, both retry helpers finish
inside the loop, by returning a value some invocation of the operation
produced or by throwing there; the trailing throw after the loop is
unreachable. -/
theorem c10_loop_exit {α : Type} (op : Nat → OpStep α) (opB : Nat → BOpStep α)
    (maxAttempts baseDelay : Nat) (nowAt : Nat → Int) (jitterAt : Nat → ℚ)
    (hmax : 1 ≤ maxAttempts) :
    (retryWithGitHubRateLimit op maxAttempts baseDelay nowAt jitterAt).1 ≠
      GHRetryResult.unreachablePostLoop ∧
    (retryWithBackoff opB maxAttempts baseDelay jitterAt).1 ≠
      BRetryResult.unreachablePostLoop ∧
    (∀ a, (retryWithGitHubRateLimit op maxAttempts baseDelay nowAt jitterAt).1 =
      GHRetryResult.success a → ∃ i, 1 ≤ i ∧ i ≤ maxAttempts ∧ op i = OpStep.ok a) := by
  refine ⟨?_, ?_, ?_⟩
  · exact retryGHLoop_ne_unreachable op maxAttempts baseDelay nowAt jitterAt
      maxAttempts 1 hmax (by omega)
  · exact retryBLoop_ne_unreachable opB maxAttempts baseDelay jitterAt
      maxAttempts 1 hmax (by omega)
  · intro a ha
    rcases retryGHLoop_success_from_op op maxAttempts baseDelay nowAt jitterAt
      maxAttempts 1 a ha with ⟨i, hi1, hi2, hi3⟩
    exact ⟨i, hi1, by omega, hi3⟩

/-- Witness for C10: a first try success under both helpers. -/
theorem c10_loop_exit_witness :
    (retryWithGitHubRateLimit (fun _ => OpStep.ok 7 : Nat → OpStep Nat)
      5 1000 (fun _ => 0) (fun _ => 0)).1 ≠ GHRetryResult.unreachablePostLoop ∧
    (retryWithBackoff (fun _ => BOpStep.ok 7 : Nat → BOpStep Nat)
      5 1000 (fun _ => 0)).1 ≠ BRetryResult.unreachablePostLoop ∧
    (∀ a, (retryWithGitHubRateLimit (fun _ => OpStep.ok 7 : Nat → OpStep Nat)
      5 1000 (fun _ => 0) (fun _ => 0)).1 = GHRetryResult.success a →
      ∃ i, 1 ≤ i ∧ i ≤ 5 ∧ (fun _ => OpStep.ok 7 : Nat → OpStep Nat) i = OpStep.ok a) :=
  c10_loop_exit (fun _ => OpStep.ok 7) (fun _ => BOpStep.ok 7)
    5 1000 (fun _ => 0) (fun _ => 0) (by omega)

/-- An issue, not a pull request, carrying the sync label. -/
def labeledIssue : RepoItem := RepoItem.mk ["sync/upstream-v1.2.3"] false 0

/-- A pull request carrying the sync label. -/
def labeledPR : RepoItem := RepoItem.mk ["sync/upstream-v1.2.3"] true 0

/-- Claim C4 counterexample: the target repository holds one issue, and no
pull request, carrying the sync label; both variants of the sync state
checker return false even though an issue with the label exists, so the
claimed equivalence with an issue or pull request carrying the label fails. -/
theorem c4_counterexample :
    (∃ i ∈ [labeledIssue], itemHasLabel i "sync/upstream-v1.2.3" = true) ∧
    checkExistingSyncSearch [labeledIssue] "sync/upstream-v1.2.3" = false ∧
    checkExistingSyncList [labeledIssue] "sync/upstream-v1.2.3" = false := by
  decide

/-- Claim C4 as amended: the search based checker returns true exactly when
at least one pull request, in any state, carries the sync label; issues
carrying the label do not count.  The list based variant only ever answers
true when such a pull request exists, since it inspects only the most
recently created labelled item. -/
theorem c4_checker_counts_prs_only (items : List RepoItem) (lbl : String) :
    (checkExistingSyncSearch items lbl = true ↔
      ∃ i ∈ items, i.isPullRequest = true ∧ itemHasLabel i lbl = true) ∧
    (checkExistingSyncList items lbl = true →
      ∃ i ∈ items, i.isPullRequest = true ∧ itemHasLabel i lbl = true) := by
  constructor
  · unfold checkExistingSyncSearch searchTotalCount
    rw [← List.countP_eq_length_filter]
    simp only [decide_eq_true_eq]
    rw [List.countP_pos_iff]
    constructor
    · rintro ⟨i, hi, hp⟩
      rw [Bool.and_eq_true] at hp
      exact ⟨i, hi, hp.1, hp.2⟩
    · rintro ⟨i, hi, h1, h2⟩
      exact ⟨i, hi, by rw [Bool.and_eq_true]; exact ⟨h1, h2⟩⟩
  · intro h
    unfold checkExistingSyncList at h
    rcases List.any_eq_true.mp h with ⟨i, hi, hp⟩
    have hi2 := List.mem_of_mem_take hi
    rw [List.mem_insertionSort] at hi2
    rcases List.mem_filter.mp hi2 with ⟨hmem, hlbl⟩
    exact ⟨i, hmem, hp, hlbl⟩

/-- Claim C5 counterexample: on the tag set of the claim the resolver
returns 2.0.0-rc.1, the semver maximal name, because the prerelease of major
two is above any one dot version, not v1.2.10 as claimed. -/
theorem c5_counterexample :
    getLatestTag ["v1.2.3", "2.0.0-rc.1", "not-a-tag", "v1.2.10"] = some "2.0.0-rc.1" ∧
    getLatestTag ["v1.2.3", "2.0.0-rc.1", "not-a-tag", "v1.2.10"] ≠ some "v1.2.10" := by
  decide

/-- Claim C5 as amended: the resolver returns the name of a tag whose cleaned
name parses as a semantic version and is maximal under standard semver
precedence, silently dropping non semver names, and returns none, not an
error, when the set is empty or no name is semver valid; on the claimed set
the maximum is 2.0.0-rc.1, and removing it leaves v1.2.10 as the numeric,
not lexical, maximum. -/
theorem c5_latest_semver_tag (tagNames : List String) :
    ((∀ nm, getLatestTag tagNames = some nm →
      nm ∈ tagNames ∧ ∃ v, cleanTag nm = some v ∧
        ∀ m ∈ tagNames, ∀ w, cleanTag m = some w →
          semverCompare w v ≠ Ordering.gt) ∧
     (getLatestTag tagNames = none ↔ ∀ n ∈ tagNames, cleanTag n = none)) ∧
    getLatestTag ["v1.2.3", "2.0.0-rc.1", "not-a-tag", "v1.2.10"] = some "2.0.0-rc.1" ∧
    getLatestTag ["v1.2.3", "not-a-tag", "v1.2.10"] = some "v1.2.10" ∧
    getLatestTag [] = none ∧
    getLatestTag ["not-a-tag"] = none :=
  ⟨getLatestTag_spec tagNames, by decide, by decide, by decide, by decide⟩

/-- A pull request carrying the sync label of tag v1.0.0. -/
def labeledPRv100 : RepoItem := RepoItem.mk ["sync/upstream-v1.0.0"] true 0

/-- A world whose upstream has the single tag v1.0.0 and whose target already
carries the matching sync label on a pull request. -/
def processedWorld : SyncWorld :=
  SyncWorld.mk ["v1.0.0"] [labeledPRv100] "main" 1

/-- A world with no upstream tags and an empty target. -/
def emptyWorld : SyncWorld := SyncWorld.mk [] [] "main" 1

/-- Claim C6: when the already processed check for the latest tag answers
true, the run ends successfully right after that check: the effect trace is
exactly the two reads the resolver and the checker perform, so no git command
runs and no branch push, pull request or label creation happens. -/
theorem c6_skip_no_side_effects (tr ur tok t : String) (w : SyncWorld)
    (hto : splitComponent tr 0 ≠ "") (htn : splitComponent tr 1 ≠ "")
    (huo : splitComponent ur 0 ≠ "") (hun : splitComponent ur 1 ≠ "")
    (htag : getLatestTag w.upstreamTags = some t)
    (hsync : checkExistingSyncSearch w.targetItems ("sync/upstream-" ++ t) = true) :
    runSync (SyncInputs.mk (some tr) (some ur) (some tok)) w =
      (Except.ok (), [Effect.apiListTags (splitComponent ur 0) (splitComponent ur 1),
        Effect.apiSearchIssues (splitComponent tr 0) (splitComponent tr 1)
          ("sync/upstream-" ++ t)]) ∧
    ∀ e ∈ (runSync (SyncInputs.mk (some tr) (some ur) (some tok)) w).2,
      e.isWrite = false := by
  have hrun : runSync (SyncInputs.mk (some tr) (some ur) (some tok)) w =
      (Except.ok (), [Effect.apiListTags (splitComponent ur 0) (splitComponent ur 1),
        Effect.apiSearchIssues (splitComponent tr 0) (splitComponent tr 1)
          ("sync/upstream-" ++ t)]) := by
    simp only [runSync]
    rw [if_neg (by simp [huo, hun, hto, htn])]
    simp only [htag]
    rw [if_pos hsync]
    rfl
  refine ⟨hrun, ?_⟩
  rw [hrun]
  intro e he
  simp only [List.mem_cons, List.not_mem_nil, or_false] at he
  rcases he with rfl | rfl
  · rfl
  · rfl

/-- Witness for C6 in the already processed world. -/
theorem c6_skip_no_side_effects_witness :
    runSync (SyncInputs.mk (some "octo/target") (some "octo/upstream") (some "tok"))
        processedWorld =
      (Except.ok (),
        [Effect.apiListTags (splitComponent "octo/upstream" 0)
           (splitComponent "octo/upstream" 1),
         Effect.apiSearchIssues (splitComponent "octo/target" 0)
           (splitComponent "octo/target" 1) ("sync/upstream-" ++ "v1.0.0")]) ∧
    ∀ e ∈ (runSync (SyncInputs.mk (some "octo/target") (some "octo/upstream")
        (some "tok")) processedWorld).2, e.isWrite = false :=
  c6_skip_no_side_effects "octo/target" "octo/upstream" "tok" "v1.0.0" processedWorld
    (by decide) (by decide) (by decide) (by decide) (by decide) (by decide)

/-- Claim C7 counterexample: the upstream-repo input a/b/c does not parse as
owner slash name, yet the run does not fail: the validation only checks the
first two slash separated components, so the run proceeds and issues the
remote tag listing call with owner a and name b. -/
theorem c7_counterexample :
    (splitOnChar '/' "a/b/c".toList).length = 3 ∧
    runSync (SyncInputs.mk (some "o/r") (some "a/b/c") (some "tok")) emptyWorld =
      (Except.ok (), [Effect.apiListTags "a" "b"]) :=
  ⟨by decide, rfl⟩

/-- Claim C7 as amended: a missing required input fails fatally with a
descriptive message before any remote API call or git command and without
retry, and so does a target-repo or upstream-repo whose first two slash
separated components are not both nonempty; inputs with extra components
such as a/b/c are accepted, the components beyond the second being ignored. -/
theorem c7_input_validation (tr ur tok : String) (o2 o3 : Option String)
    (w : SyncWorld) :
    (runSync (SyncInputs.mk none o2 o3) w =
      (Except.error "Input required and not supplied: target-repo", [])) ∧
    (runSync (SyncInputs.mk (some tr) none o3) w =
      (Except.error "Input required and not supplied: upstream-repo", [])) ∧
    (runSync (SyncInputs.mk (some tr) (some ur) none) w =
      (Except.error "Input required and not supplied: github-token", [])) ∧
    (splitComponent ur 0 = "" ∨ splitComponent ur 1 = "" ∨
      splitComponent tr 0 = "" ∨ splitComponent tr 1 = "" →
      runSync (SyncInputs.mk (some tr) (some ur) (some tok)) w =
        (Except.error "Invalid repository format", [])) := by
  refine ⟨rfl, rfl, rfl, ?_⟩
  intro hbad
  simp only [runSync]
  rw [if_pos hbad]

theorem isPrefixOf_append_self (p q : List Char) : p.isPrefixOf (p ++ q) = true := by
  induction p with
  | nil => simp [List.isPrefixOf]
  | cons c cs ih => simp [List.isPrefixOf, ih]

/-- Claim C8: the tag name extraction of the tag on merge action returns the
capture of the anchored pattern sync slash upstream dash followed by one or
more characters when the branch name matches, and nothing otherwise, in which
case the run skips without error: sync/upstream-v3.4.5 extracts v3.4.5 and
feature/unrelated extracts nothing. -/
theorem c8_extract_tag (rest s tok : String) (pr : PRPayload) :
    extractTagFromBranch "sync/upstream-v3.4.5" = some "v3.4.5" ∧
    extractTagFromBranch "feature/unrelated" = none ∧
    (¬ ("sync/upstream-".toList.isPrefixOf s.toList = true) →
      extractTagFromBranch s = none) ∧
    (rest ≠ "" → rest.toList.all (fun c => !isLineTerm c) = true →
      extractTagFromBranch ("sync/upstream-" ++ rest) = some rest) ∧
    (pr.merged = true → extractTagFromBranch pr.headRef = none →
      runTagOnMerge (PayloadPR.wellFormed pr) (some tok) = (Except.ok (), [])) := by
  refine ⟨by decide, by decide, ?_, ?_, ?_⟩
  · intro hnp
    unfold extractTagFromBranch
    rw [if_neg hnp]
  · intro hne hterm
    unfold extractTagFromBranch
    have htl : ("sync/upstream-" ++ rest).toList =
        "sync/upstream-".toList ++ rest.toList := String.data_append _ _
    rw [htl, if_pos (isPrefixOf_append_self _ _), List.drop_left]
    have hrne : ¬ rest.toList.isEmpty = true := by
      intro hemp
      apply hne
      apply String.ext
      simpa using List.isEmpty_iff.mp hemp
    rw [if_pos ?_]
    · rfl
    · rw [Bool.and_eq_true]
      refine ⟨?_, hterm⟩
      cases hie : rest.toList.isEmpty
      · rfl
      · exact absurd hie hrne
  · intro hm hx
    simp only [runTagOnMerge, hm, hx]
    rfl

/-- A merged sync pull request whose merge commit sha is absent. -/
def shalessPR : PRPayload := PRPayload.mk true "sync/upstream-v1.0.0" 7 none

/-- Claim C9: on a well formed merged pull request from a branch matching the
sync pattern, an absent merge commit sha makes the action fail fatally with
no tag object or reference created; a payload that is missing entirely or
fails the field shape guard is treated as not a merge event and silently
skipped. -/
theorem c9_absent_sha_fatal (pr : PRPayload) (tok t : String)
    (hm : pr.merged = true) (hx : extractTagFromBranch pr.headRef = some t)
    (hsha : pr.mergeCommitSha = none) :
    runTagOnMerge (PayloadPR.wellFormed pr) (some tok) =
      (Except.error "Merge commit SHA is undefined", []) ∧
    (∀ tok2 : Option String,
      runTagOnMerge PayloadPR.missing tok2 = (Except.ok (), []) ∧
      runTagOnMerge PayloadPR.malformed tok2 = (Except.ok (), [])) := by
  constructor
  · simp only [runTagOnMerge, hm, hx, hsha]
    rfl
  · intro tok2
    exact ⟨rfl, rfl⟩

/-- Witness for C9 at the concrete sha less payload. -/
theorem c9_absent_sha_fatal_witness :
    runTagOnMerge (PayloadPR.wellFormed shalessPR) (some "tok") =
      (Except.error "Merge commit SHA is undefined", []) ∧
    (∀ tok2 : Option String,
      runTagOnMerge PayloadPR.missing tok2 = (Except.ok (), []) ∧
      runTagOnMerge PayloadPR.malformed tok2 = (Except.ok (), [])) :=
  c9_absent_sha_fatal shalessPR "tok" "v1.0.0" rfl (by decide) rfl
